import Mathlib

/-!
Verification of the yongo-validation registration-and-evaluation engine.

The data model and the evaluation routine are shallow embeddings of the
TypeScript sources: `FieldOptions` and its `validateValue` loop come from
`src/field-options.ts`; the `MinLength` decorator comes from the decorator
source file. The `BaseValidator` capability set, the `MinLength` validator
construction, the `ValidationManager` registry and the `ModelValidator`
field lookup are not among the provided source files, so they are modelled
from the specification (their doc comments say so explicitly).

Mutable state in the original code (the validator array inside a
`FieldOptions`, the process-wide type registry) is rendered by explicit
state passing: an operation that mutates an object becomes a function
returning the updated object.
-/

namespace Yongo

/-- Dynamic values a model field can hold, mirroring the JavaScript values
the engine inspects. Numbers are modelled as integers (none of the verified
claims depends on floating point). -/
inductive JSValue : Type where
  | vNull : JSValue
  | vUndefined : JSValue
  | vBool : Bool → JSValue
  | vNum : Int → JSValue
  | vStr : String → JSValue
  deriving Repr, DecidableEq

/-- JavaScript falsiness, the meaning of the source expression
`isEmpty = !value` in `FieldOptions.validateValue`. -/
def JSValue.isFalsy : JSValue → Bool
  | .vNull => true
  | .vUndefined => true
  | .vBool b => !b
  | .vNum n => n == 0
  | .vStr s => s == ""

/-- Modelled from the spec: the file `validators/base-validator.ts` is not
among the provided sources, only its import and its use sites in
`field-options.ts`. Capability set per spec section 3: `isValid(value,
model)`, `getMessage(fieldName, value)`, `validatesEmptyValue()`,
`hasCustomMessage`, `getCustomMessage()`. `Model` is the type of the model
instance handed through for cross-field checks. -/
structure BaseValidator (Model : Type) : Type where
  isValid : JSValue → Model → Bool
  getMessage : String → JSValue → String
  validatesEmptyValue : Bool
  hasCustomMessage : Bool
  getCustomMessage : String

/-- Per-field configuration from `src/field-options.ts`: display name
(initialised to the placeholder string Field) and the ordered validator
list (initialised empty). -/
structure FieldOptions (Model : Type) : Type where
  fieldName : String
  validators : List (BaseValidator Model)

/-- The constructor state of `FieldOptions`: field initialisers
`fieldName = 'Field'` and `validators = []`. -/
def FieldOptions.new {Model : Type} : FieldOptions Model :=
  { fieldName := "Field", validators := [] }

/-- `getFieldName()` from `src/field-options.ts`. -/
def FieldOptions.getFieldName {Model : Type} (fo : FieldOptions Model) : String :=
  fo.fieldName

/-- `setFieldName(name)` from `src/field-options.ts`, state-passing style. -/
def FieldOptions.setFieldName {Model : Type} (fo : FieldOptions Model)
    (name : String) : FieldOptions Model :=
  { fo with fieldName := name }

/-- `addValidator(validator)` from `src/field-options.ts`: push onto the
end of the validator array. -/
def FieldOptions.addValidator {Model : Type} (fo : FieldOptions Model)
    (validator : BaseValidator Model) : FieldOptions Model :=
  { fo with validators := fo.validators ++ [validator] }

/-- `getValidators()` from `src/field-options.ts`. -/
def FieldOptions.getValidators {Model : Type} (fo : FieldOptions Model) :
    List (BaseValidator Model) :=
  fo.validators

/-- The message resolution inside the loop of `validateValue`:
`validator.hasCustomMessage ? validator.getCustomMessage() :
validator.getMessage(fieldName, value)`. -/
def resolveMessage {Model : Type} (fieldName : String) (value : JSValue)
    (v : BaseValidator Model) : String :=
  if v.hasCustomMessage then v.getCustomMessage else v.getMessage fieldName value

/-- The `for` loop of `validateValue` in `src/field-options.ts`, rendered
as structural recursion over the validator array. Each iteration either
skips an empty-value-averse validator on empty input, pushes the resolved
message of a failing validator, or moves on. -/
def validateLoop {Model : Type} (fieldName : String) (isEmpty : Bool)
    (value : JSValue) (model : Model) :
    List (BaseValidator Model) → List String
  | [] => []
  | v :: vs =>
    if !v.validatesEmptyValue && isEmpty then
      validateLoop fieldName isEmpty value model vs
    else if !v.isValid value model then
      resolveMessage fieldName value v :: validateLoop fieldName isEmpty value model vs
    else
      validateLoop fieldName isEmpty value model vs

/-- `validateValue(value, model)` from `src/field-options.ts`:
captures `fieldName = this.fieldName` and `isEmpty = !value` once, then
runs the loop over `this.validators` accumulating error strings. -/
def FieldOptions.validateValue {Model : Type} (fo : FieldOptions Model)
    (value : JSValue) (model : Model) : List String :=
  validateLoop fo.fieldName value.isFalsy value model fo.validators

/-- String length of a dynamic value, used by the length-bound validators:
the `.length` of a string, and 0 for non-string values. -/
def JSValue.strLength : JSValue → Nat
  | .vStr s => s.length
  | _ => 0

/-- Configuration errors raised at validator construction time
(spec section 7). -/
inductive ConfigError : Type where
  | invalidParameter : String → ConfigError
  deriving Repr, DecidableEq

/-- Modelled from the spec: the file `validators/min-length.ts` is not
among the provided sources, only the decorator that constructs it. Spec
section 4.1: isValid = length greater than or equal to n; n must be a
positive integer, else construction fails with a configuration error;
default message template per the integration tests, for example
`Password must be at least 10 characters long`; non-Required validators
do not validate empty values. The optional `message` argument is the
custom message override. -/
def MinLengthValidator.make (Model : Type) (minLength : Int)
    (message : Option String) : Except ConfigError (BaseValidator Model) :=
  if minLength ≤ 0 then
    .error (.invalidParameter "MinLength requires a positive integer bound")
  else
    .ok
      { isValid := fun value _ => minLength ≤ (value.strLength : Int)
        getMessage := fun fieldName _ =>
          fieldName ++ " must be at least " ++ toString minLength ++
            " characters long"
        validatesEmptyValue := false
        hasCustomMessage := message.isSome
        getCustomMessage := message.getD "" }

/-- Modelled from the spec: the file `validation-manager.ts` is not among
the provided sources, only its callers. Spec section 4.3: a mapping from
field name to `FieldOptions`, keys unique, insertion order preserved. -/
structure ValidationManager (Model : Type) : Type where
  fields : List (String × FieldOptions Model)

/-- Modelled from the spec: a newly created manager has no fields. -/
def ValidationManager.empty {Model : Type} : ValidationManager Model :=
  { fields := [] }

/-- Field lookup inside a manager by field name. -/
def ValidationManager.lookupField {Model : Type} (m : ValidationManager Model)
    (field : String) : Option (FieldOptions Model) :=
  m.fields.lookup field

/-- Modelled from the spec: `addValidator(field, validator)` looks up or
lazily creates the field entry, then appends the validator,
order-preserving (spec section 4.3). -/
def ValidationManager.addValidator {Model : Type} (m : ValidationManager Model)
    (field : String) (v : BaseValidator Model) : ValidationManager Model :=
  match m.fields.lookup field with
  | some _ =>
    { fields := m.fields.map fun p =>
        if p.1 == field then (p.1, p.2.addValidator v) else p }
  | none =>
    { fields := m.fields ++ [(field, FieldOptions.new.addValidator v)] }

/-- Type identities keying the process-wide registry; opaque tokens,
modelled as natural numbers. -/
abbrev TypeId : Type := Nat

/-- The process-wide type-to-manager registry (spec section 4.3), rendered
as an explicit association list threaded through registration calls. -/
abbrev Registry (Model : Type) : Type := List (TypeId × ValidationManager Model)

/-- Modelled from the spec: `ValidationManager.get(type)` creates-or-returns
the singleton manager for a type (spec section 4.3). State-passing style:
returns the manager together with the registry after the call (unchanged
when the manager already existed, extended with a fresh empty manager
otherwise). -/
def Registry.get {Model : Type} (r : Registry Model) (t : TypeId) :
    ValidationManager Model × Registry Model :=
  match List.lookup t r with
  | some m => (m, r)
  | none => (ValidationManager.empty, r ++ [(t, ValidationManager.empty)])

/-- Update of the registry entry for a type after its manager was mutated:
this is how an in-place mutation of the shared manager object is rendered
in state-passing style. -/
def Registry.put {Model : Type} (r : Registry Model) (t : TypeId)
    (m : ValidationManager Model) : Registry Model :=
  r.map fun p => if p.1 == t then (p.1, m) else p

/-- Registration through the registry, the body of a field decorator:
`let manager = ValidationManager.get(targetClass);
manager.addValidator(property, v)` from the decorator source file. -/
def Registry.register {Model : Type} (r : Registry Model) (t : TypeId)
    (property : String) (v : BaseValidator Model) : Registry Model :=
  let got := Registry.get r t
  Registry.put got.2 t (got.1.addValidator property v)

/-- The `MinLength(minLength, message)` decorator from the decorator source
file, applied to one property of one class: obtain the manager for the
class and add a fresh `MinLengthValidator`. Construction of the validator
can fail with a configuration error, which propagates. -/
def applyMinLength {Model : Type} (r : Registry Model) (t : TypeId)
    (property : String) (minLength : Int) (message : Option String) :
    Except ConfigError (Registry Model) :=
  match MinLengthValidator.make Model minLength message with
  | .error e => .error e
  | .ok v => .ok (Registry.register r t property v)

/-- Modelled from the spec: `ModelValidator.validateField(name)` resolves
the field options for the name in the manager; an absent name means no
validators and yields the empty list, not an error (spec section 4.4).
`readField` stands for the member access `model[name]`. -/
def ValidationManager.validateField {Model : Type} (m : ValidationManager Model)
    (name : String) (readField : String → JSValue) (model : Model) :
    List String :=
  match m.lookupField name with
  | none => []
  | some fo => fo.validateValue (readField name) model

/-- The `for` loop of `validateValue` with the full machine state threaded
explicitly: the field options object, the field value and the model are
carried through every iteration alongside the local errors array. The
source loop body only ever pushes onto `errors`; under state passing that
means the other components flow through each branch unchanged, which the
frame theorem then states. -/
def validateLoopFrame {Model : Type} (fieldName : String) (isEmpty : Bool) :
    List (BaseValidator Model) → FieldOptions Model → JSValue → Model →
      List String → (List String × FieldOptions Model × JSValue × Model)
  | [], fo, value, model, errors => (errors, fo, value, model)
  | v :: vs, fo, value, model, errors =>
    if !v.validatesEmptyValue && isEmpty then
      validateLoopFrame fieldName isEmpty vs fo value model errors
    else if !v.isValid value model then
      validateLoopFrame fieldName isEmpty vs fo value model
        (errors ++ [resolveMessage fieldName value v])
    else
      validateLoopFrame fieldName isEmpty vs fo value model errors

/-- `validateValue` in state-passing form: runs the threaded loop from the
empty errors array and returns the error list together with the final
state of everything the call could conceivably have written to. -/
def FieldOptions.validateValueFrame {Model : Type} (fo : FieldOptions Model)
    (value : JSValue) (model : Model) :
    List String × FieldOptions Model × JSValue × Model :=
  validateLoopFrame fo.fieldName value.isFalsy fo.validators fo value model []

/-! Helper lemmas shared by the claim theorems. -/

/-- The evaluation loop produces exactly the resolved messages of the
evaluated-and-failing validators, in list order. -/
theorem validateLoop_eq_filter_map {Model : Type} (fieldName : String)
    (isEmpty : Bool) (value : JSValue) (model : Model)
    (vs : List (BaseValidator Model)) :
    validateLoop fieldName isEmpty value model vs =
      (vs.filter fun v =>
          (v.validatesEmptyValue || !isEmpty) && !v.isValid value model).map
        (resolveMessage fieldName value) := by
  induction vs with
  | nil => rfl
  | cons v vs ih =>
    cases hv : v.validatesEmptyValue <;> cases hE : isEmpty <;>
      cases hi : v.isValid value model <;>
      simp_all [validateLoop, List.filter_cons]

/-- Folding `setFieldName` over a list of names overwrites the display
name with the last name of the list and leaves the validators alone. -/
theorem foldl_setFieldName {Model : Type} (names : List String)
    (fo : FieldOptions Model) :
    names.foldl FieldOptions.setFieldName fo =
      { fieldName := names.getLast?.getD fo.fieldName,
        validators := fo.validators } := by
  induction names generalizing fo with
  | nil => rfl
  | cons n ns ih =>
    rw [List.foldl_cons, ih]
    cases ns with
    | nil => rfl
    | cons m ms =>
      rw [List.getLast?_cons_cons]
      have hs : ((m :: ms).getLast?).isSome := by
        rw [List.getLast?_isSome]
        exact List.cons_ne_nil m ms
      cases hl : (m :: ms).getLast? with
      | none => rw [hl] at hs; simp at hs
      | some a => rfl

/-- Folding `addValidator` over a list of validators appends them, in
order, to the end of the existing chain and leaves the name alone. -/
theorem foldl_addValidator {Model : Type} (vs : List (BaseValidator Model))
    (fo : FieldOptions Model) :
    vs.foldl FieldOptions.addValidator fo =
      { fieldName := fo.fieldName, validators := fo.validators ++ vs } := by
  induction vs generalizing fo with
  | nil => simp
  | cons v vs ih =>
    rw [List.foldl_cons, ih]
    simp [FieldOptions.addValidator]

/-- A key absent from an association list is found at the end after
appending an entry for it. -/
theorem lookup_append_single {α β : Type} [BEq α] [LawfulBEq α]
    (l : List (α × β)) (k : α) (x : β) (h : List.lookup k l = none) :
    List.lookup k (l ++ [(k, x)]) = some x := by
  induction l with
  | nil => simp [List.lookup]
  | cons p l ih =>
    rw [List.cons_append, List.lookup] at *
    cases hk : (k == p.1) with
    | true => simp [hk] at h
    | false => simp only [hk] at h ⊢; exact ih h

/-- The threaded evaluation loop returns its field options, value and
model untouched, and accumulates exactly the errors of the plain loop. -/
theorem validateLoopFrame_spec {Model : Type} (fieldName : String)
    (isEmpty : Bool) (vs : List (BaseValidator Model))
    (fo : FieldOptions Model) (value : JSValue) (model : Model)
    (errors : List String) :
    validateLoopFrame fieldName isEmpty vs fo value model errors =
      (errors ++ validateLoop fieldName isEmpty value model vs,
        fo, value, model) := by
  induction vs generalizing errors with
  | nil => simp [validateLoopFrame, validateLoop]
  | cons v vs ih =>
    cases hv : v.validatesEmptyValue <;> cases hE : isEmpty <;>
      cases hi : v.isValid value model <;>
      simp_all [validateLoopFrame, validateLoop]

/-! Claim theorems. -/

/-- C1: for every field value, model and validator chain, `validateValue`
returns exactly one message per failing evaluated validator — it equals
the map of the resolved message over the evaluated-and-failing validators
filtered from the chain in registration order. Hence no deduplication, no
reordering, nothing from passing validators, and no stop at the first
failure. -/
theorem validateValue_exact_messages {Model : Type} (fo : FieldOptions Model)
    (value : JSValue) (model : Model) :
    fo.validateValue value model =
      (fo.validators.filter fun v =>
          (v.validatesEmptyValue || !value.isFalsy) && !v.isValid value model).map
        (resolveMessage fo.fieldName value) :=
  validateLoop_eq_filter_map fo.fieldName value.isFalsy value model fo.validators

/-- C2: a validator whose `validatesEmptyValue()` is false is skipped
entirely on an empty (falsy) value — the result of `validateValue` is the
same as if the validator were absent from the chain, so its `isValid` can
never influence the outcome and it never contributes a message. -/
theorem validateValue_skips_empty_averse {Model : Type} (name : String)
    (pre post : List (BaseValidator Model)) (v : BaseValidator Model)
    (value : JSValue) (model : Model)
    (hv : v.validatesEmptyValue = false) (he : value.isFalsy = true) :
    FieldOptions.validateValue ⟨name, pre ++ v :: post⟩ value model =
      FieldOptions.validateValue ⟨name, pre ++ post⟩ value model := by
  simp only [FieldOptions.validateValue, validateLoop_eq_filter_map,
    List.filter_append, List.filter_cons, hv, he]
  simp

/-- Witness for C2 at a concrete input: a failing MinLength-like validator
with `validatesEmptyValue = false` contributes nothing on the empty
string. -/
theorem validateValue_skips_empty_averse_witness :
    FieldOptions.validateValue
        ⟨"Field", [⟨fun _ _ => false, fun n _ => n, false, false, ""⟩]⟩
        (JSValue.vStr "") () =
      FieldOptions.validateValue (⟨"Field", []⟩ : FieldOptions Unit)
        (JSValue.vStr "") () :=
  validateValue_skips_empty_averse "Field" [] []
    ⟨fun _ _ => false, fun n _ => n, false, false, ""⟩
    (JSValue.vStr "") () rfl (by decide)

/-- C3: a failing evaluated validator with a custom message makes
`validateValue` emit exactly `getCustomMessage()` — the right-hand side
does not mention the display name at all; only without a custom message is
the default template `getMessage(fieldName, value)` rendered with the
display name. -/
theorem validateValue_custom_message_precedence {Model : Type} (name : String)
    (isV : JSValue → Model → Bool) (gm : String → JSValue → String)
    (vev : Bool) (cm : String) (value : JSValue) (model : Model) :
    (FieldOptions.validateValue ⟨name, [⟨isV, gm, vev, true, cm⟩]⟩ value model =
        if (vev || !value.isFalsy) && !isV value model then [cm] else []) ∧
      (FieldOptions.validateValue ⟨name, [⟨isV, gm, vev, false, cm⟩]⟩ value model =
        if (vev || !value.isFalsy) && !isV value model then [gm name value]
        else []) := by
  constructor <;>
    cases hv : vev <;> cases hE : value.isFalsy <;>
      cases hi : isV value model <;>
      simp_all [FieldOptions.validateValue, validateLoop, resolveMessage]

/-- C5: a field with no registered validators validates to the empty error
list, and a field name absent from the manager yields the empty error list
from `validateField` rather than an error. -/
theorem no_validators_vacuously_valid {Model : Type} (fo : FieldOptions Model)
    (value : JSValue) (model : Model) (m : ValidationManager Model)
    (name : String) (readField : String → JSValue)
    (hfo : fo.getValidators = []) (hm : m.lookupField name = none) :
    fo.validateValue value model = [] ∧
      m.validateField name readField model = [] := by
  constructor
  · have hv : fo.validators = [] := hfo
    simp [FieldOptions.validateValue, hv, validateLoop]
  · simp [ValidationManager.validateField, hm]

/-- Witness for C5 at a concrete input: a fresh `FieldOptions` and an
empty manager report no errors. -/
theorem no_validators_vacuously_valid_witness :
    FieldOptions.validateValue (FieldOptions.new : FieldOptions Unit)
        (JSValue.vStr "anything") () = [] ∧
      ValidationManager.validateField (ValidationManager.empty : ValidationManager Unit)
        "username" (fun _ => JSValue.vStr "anything") () = [] :=
  no_validators_vacuously_valid FieldOptions.new (JSValue.vStr "anything") ()
    ValidationManager.empty "username" (fun _ => JSValue.vStr "anything")
    rfl rfl

/-- C4: `get` on the registry is create-or-return: calling it again for
the same type returns the same manager and leaves the registry unchanged,
and two decorator registrations for one class and property accumulate
both validators, in order, inside the one shared manager. -/
theorem registry_get_singleton {Model : Type} (r : Registry Model)
    (t : TypeId) (field : String) (v₁ v₂ : BaseValidator Model) :
    Registry.get (Registry.get r t).2 t = Registry.get r t ∧
      ((Registry.get
            (Registry.register (Registry.register ([] : Registry Model) t field v₁)
              t field v₂) t).1.lookupField field).map
          FieldOptions.getValidators = some [v₁, v₂] := by
  constructor
  · cases h : List.lookup t r with
    | some m => simp [Registry.get, h]
    | none => simp [Registry.get, h, lookup_append_single r t _ h]
  · have h1 : Registry.register ([] : Registry Model) t field v₁ =
        [(t, { fields := [(field, { fieldName := "Field", validators := [v₁] })] })] := by
      simp [Registry.register, Registry.get, Registry.put,
        ValidationManager.empty, ValidationManager.addValidator,
        FieldOptions.new, FieldOptions.addValidator, List.lookup]
    have h2 : Registry.register
        [(t, ({ fields := [(field, { fieldName := "Field", validators := [v₁] })] } :
          ValidationManager Model))] t field v₂ =
        [(t, { fields := [(field, { fieldName := "Field", validators := [v₁, v₂] })] })] := by
      simp [Registry.register, Registry.get, Registry.put,
        ValidationManager.addValidator, FieldOptions.addValidator, List.lookup]
    rw [h1, h2]
    simp [Registry.get, ValidationManager.lookupField,
      FieldOptions.getValidators, List.lookup]

/-- C6: constructing the MinLength validator with a non-positive bound
produces a configuration error, and it errors only then — a non-positive
bound is never silently accepted. -/
theorem minLength_nonpositive_rejected (Model : Type) (minLength : Int)
    (message : Option String) :
    (∃ e, MinLengthValidator.make Model minLength message = Except.error e) ↔
      minLength ≤ 0 := by
  by_cases h : minLength ≤ 0 <;> simp [MinLengthValidator.make, h]

/-- C7: after any sequence of `setFieldName` calls the display name is the
last name written (the default placeholder Field when the sequence is
empty), and rendered default messages use exactly that name. -/
theorem fieldName_last_write_wins {Model : Type} (names : List String)
    (isV : JSValue → Model → Bool) (gm : String → JSValue → String)
    (vev : Bool) (value : JSValue) (model : Model) :
    ((names.foldl FieldOptions.setFieldName
          (((FieldOptions.new : FieldOptions Model)).addValidator
            ⟨isV, gm, vev, false, ""⟩)).getFieldName =
        names.getLast?.getD "Field") ∧
      ((names.foldl FieldOptions.setFieldName
          (((FieldOptions.new : FieldOptions Model)).addValidator
            ⟨isV, gm, vev, false, ""⟩)).validateValue value model =
        if (vev || !value.isFalsy) && !isV value model then
          [gm (names.getLast?.getD "Field") value]
        else []) := by
  rw [foldl_setFieldName]
  constructor
  · rfl
  · cases hv : vev <;> cases hE : value.isFalsy <;>
      cases hi : isV value model <;>
      simp_all [FieldOptions.validateValue, FieldOptions.new,
        FieldOptions.addValidator, validateLoop, resolveMessage]

/-- C8: validation is deterministic and idempotent — when two validator
chains agree pointwise on every observation made of them at the given
value and model (the statelessness hypothesis for a repeated call),
`validateValue` returns structurally equal results. -/
theorem validateValue_deterministic {Model : Type} (name : String)
    (l l' : List (BaseValidator Model)) (value : JSValue) (model : Model)
    (h : List.Forall₂ (fun v w =>
        v.validatesEmptyValue = w.validatesEmptyValue ∧
          v.isValid value model = w.isValid value model ∧
          v.hasCustomMessage = w.hasCustomMessage ∧
          v.getCustomMessage = w.getCustomMessage ∧
          v.getMessage name value = w.getMessage name value) l l') :
    FieldOptions.validateValue ⟨name, l⟩ value model =
      FieldOptions.validateValue ⟨name, l'⟩ value model := by
  simp only [FieldOptions.validateValue]
  induction h with
  | nil => rfl
  | cons hp ht ih =>
    obtain ⟨h1, h2, h3, h4, h5⟩ := hp
    simp [validateLoop, resolveMessage, h1, h2, h3, h4, h5, ih]

/-- Witness for C8 at a concrete input: the same chain observed twice
yields the same result. -/
theorem validateValue_deterministic_witness :
    FieldOptions.validateValue
        (⟨"Field", [⟨fun _ _ => false, fun n _ => n, true, false, ""⟩]⟩ :
          FieldOptions Unit)
        (JSValue.vStr "x") () =
      FieldOptions.validateValue
        (⟨"Field", [⟨fun _ _ => false, fun n _ => n, true, false, ""⟩]⟩ :
          FieldOptions Unit)
        (JSValue.vStr "x") () :=
  validateValue_deterministic "Field" _ _ (JSValue.vStr "x") ()
    (List.Forall₂.cons ⟨rfl, rfl, rfl, rfl, rfl⟩ List.Forall₂.nil)

/-- C9: evaluation mutates nothing it inspects — the state-passing form of
`validateValue` returns the field options (display name and validator
chain), the field value and the model exactly as they came in, alongside
the error list of the plain evaluation. -/
theorem validateValue_no_mutation {Model : Type} (fo : FieldOptions Model)
    (value : JSValue) (model : Model) :
    fo.validateValueFrame value model =
      (fo.validateValue value model, fo, value, model) := by
  simp [FieldOptions.validateValueFrame, FieldOptions.validateValue,
    validateLoopFrame_spec]

/-- C10: a fresh `FieldOptions` has no validators and the display name
Field, and any sequence of `addValidator` calls appends exactly the given
validators in call order. -/
theorem fieldOptions_fresh_and_append {Model : Type}
    (vs : List (BaseValidator Model)) (fo : FieldOptions Model) :
    ((FieldOptions.new : FieldOptions Model)).getValidators = [] ∧
      ((FieldOptions.new : FieldOptions Model)).getFieldName = "Field" ∧
      (vs.foldl FieldOptions.addValidator fo).getValidators =
        fo.getValidators ++ vs ∧
      (vs.foldl FieldOptions.addValidator
          ((FieldOptions.new : FieldOptions Model))).getValidators = vs := by
  refine ⟨rfl, rfl, ?_, ?_⟩ <;>
    simp [foldl_addValidator, FieldOptions.getValidators, FieldOptions.new]

end Yongo
